import Mathlib

/-!
Verification of the Rule-628 scanner (app.py): a sanitizer that blanks
comments and string literals in ABAP-like source text, three regex-based
statement scanners (SELECT, OPEN CURSOR, write DML), and a finding builder.

Text is modelled as `List Char`.  The Python regexes used by the program
are fixed, concrete patterns; each is embedded as a dedicated matcher that
reproduces the leftmost-match / backtracking behaviour of the pattern on
the character class actually used (ASCII identifiers, spaces, newlines).
`re.finditer` is embedded as a fuelled left-to-right scan that restarts
after each match end, tracking the previous character for `\b` tests.
-/

set_option maxRecDepth 16384

namespace Rule628

/-- ASCII word character, as in the regex class `\w` for the inputs in scope. -/
def isWordChar (c : Char) : Bool := c.isAlphanum || c == '_'

/-- Whitespace recognised by the regex class `\s`. -/
def isPySpace (c : Char) : Bool :=
  c == ' ' || c == '\t' || c == '\n' || c == '\r' ||
  c == Char.ofNat 11 || c == Char.ofNat 12

/-- The single-quote character (string-literal delimiter in the source dialect). -/
def quoteChar : Char := Char.ofNat 39

/-- The backslash character, used when escaping newlines in snippets. -/
def backslashChar : Char := Char.ofNat 92

/-- Line-break characters recognised by Python `str.splitlines`. -/
def isLineBreakChar (c : Char) : Bool :=
  c == '\n' || c == '\r' || c == Char.ofNat 11 || c == Char.ofNat 12 ||
  c == Char.ofNat 28 || c == Char.ofNat 29 || c == Char.ofNat 30 ||
  c == Char.ofNat 133 || c == Char.ofNat 8232 || c == Char.ofNat 8233

/-- Helper for `splitlinesKeepends`: `acc` is the reversed current line. -/
def splitAux : List Char → List Char → List (List Char)
  | acc, [] => if acc.isEmpty then [] else [acc.reverse]
  | acc, [c] =>
    if isLineBreakChar c then [acc.reverse ++ [c]] else [(c :: acc).reverse]
  | acc, c :: c2 :: rest =>
    if c == '\r' then
      if c2 == '\n' then (acc.reverse ++ ['\r', '\n']) :: splitAux [] rest
      else (acc.reverse ++ ['\r']) :: splitAux [] (c2 :: rest)
    else if isLineBreakChar c then (acc.reverse ++ [c]) :: splitAux [] (c2 :: rest)
    else splitAux (c :: acc) (c2 :: rest)

/-- Python `src.splitlines(keepends=True)`: each line keeps its terminator. -/
def splitlinesKeepends (s : List Char) : List (List Char) := splitAux [] s

/-- A run of spaces of the same length as the argument (Python `" " * len(ln)`). -/
def spacesOf (l : List Char) : List Char := l.map (fun _ => ' ')

/-- Per-line loop of `rm_strings_and_comments` (app.py lines 74-99).
The boolean is the `in_str` state.  Note that the inline-comment branch
blanks everything from the marker to the end of the *buffer*, which
includes the line terminator, exactly as `for j in range(i, len(buf))` does. -/
def sanLine : List Char → Bool → List Char
  | [], _ => []
  | [c], inStr =>
    if c == quoteChar then [c]
    else if c == '"' && !inStr then [' ']
    else [if inStr then ' ' else c]
  | c :: c2 :: rest, inStr =>
    if c == quoteChar then
      if inStr then
        if c2 == quoteChar then c :: c2 :: sanLine rest true
        else c :: sanLine (c2 :: rest) false
      else c :: sanLine (c2 :: rest) true
    else if c == '"' && !inStr then spacesOf (c :: c2 :: rest)
    else (if inStr then ' ' else c) :: sanLine (c2 :: rest) inStr

/-- `rm_strings_and_comments` (app.py lines 60-100): full-line comments
(`*` in column 1) are blanked with `" " * len(ln)` (terminator included,
as in the source), other lines go through the character loop. -/
def rm_strings_and_comments (src : List Char) : List Char :=
  ((splitlinesKeepends src).map (fun ln =>
    if ln.head? == some '*' then spacesOf ln else sanLine ln false)).flatten

/-- `line_of_offset` (app.py line 49): `text.count("\n", 0, off) + 1`. -/
def line_of_offset (text : List Char) (off : Nat) : Nat :=
  ((text.take off).filter (fun c => c == '\n')).length + 1

/-- Newline escaping used by `snippet_at`: `.replace("\n", "\\n")`. -/
def escapeNl (l : List Char) : List Char :=
  l.flatMap (fun c => if c == '\n' then [backslashChar, 'n'] else [c])

/-- `snippet_at` (app.py lines 52-55). -/
def snippet_at (text : List Char) (start stop : Nat) : List Char :=
  escapeNl ((text.take (min text.length (stop + 140))).drop (start - 140))

/-- `TARGET_TABLES` (app.py line 41). -/
def TARGET_TABLES : List String := ["t881", "t881t", "t882g"]

/-- `METHOD_MAP` (app.py lines 43-47); total function since the scanner only
looks up the three keys present in the dict. -/
def METHOD_MAP (t : String) : String :=
  if t = "t881" then "cl_fins_acdoc_util=>get_t881_emu"
  else if t = "t881t" then "cl_fins_acdoc_util=>get_t881t_emu"
  else if t = "t882g" then "cl_fins_acdoc_util=>get_t882g_emu"
  else ""

/-- Python `str.upper()` on the lowercase table identifiers. -/
def upperStr (s : String) : String := String.mk (s.toList.map Char.toUpper)

/-- `suggestion_for_read` (app.py lines 134-166). -/
def suggestion_for_read (table : String) : String :=
  let method := METHOD_MAP table
  if table = "t881" then
    "Replace direct read of " ++ upperStr table ++ " with " ++ method ++ ".\n\n" ++
    "Example:\n" ++
    "  DATA(ls_t881) = VALUE t881( ).\n" ++
    "  cl_fins_acdoc_util=>get_t881_emu(\n" ++
    "    EXPORTING iv_rldnr = lv_rldnr\n" ++
    "    IMPORTING es_t881  = ls_t881\n" ++
    "    EXCEPTIONS not_found = 1 OTHERS = 2 ).\n"
  else if table = "t881t" then
    "Replace direct read of " ++ upperStr table ++ " with " ++ method ++ ".\n\n" ++
    "Example:\n" ++
    "  DATA(ls_t881t) = VALUE t881t( ).\n" ++
    "  cl_fins_acdoc_util=>get_t881t_emu(\n" ++
    "    EXPORTING iv_rldnr = lv_rldnr iv_spras = sy-langu\n" ++
    "    IMPORTING es_t881t = ls_t881t\n" ++
    "    EXCEPTIONS not_found = 1 OTHERS = 2 ).\n"
  else if table = "t882g" then
    "Replace direct read of " ++ upperStr table ++ " with " ++ method ++ ".\n\n" ++
    "Example:\n" ++
    "  DATA(ls_t882g) = VALUE t882g( ).\n" ++
    "  cl_fins_acdoc_util=>get_t882g_emu(\n" ++
    "    EXPORTING iv_bukrs = lv_bukrs iv_rldnr = lv_rldnr\n" ++
    "    IMPORTING es_t882g = ls_t882g\n" ++
    "    EXCEPTIONS not_found = 1 OTHERS = 2 ).\n"
  else "Use " ++ method ++ "."

/-- `suggestion_for_write` (app.py lines 168-173). -/
def suggestion_for_write (table : String) : String :=
  "Direct writes to " ++ upperStr table ++ " are disallowed in S/4HANA. " ++
  "These tables are obsolete customizing; redesign to use the supported " ++
  "configuration/APIs and remove the DML."

/-- Case-insensitive literal match: the first `pat.length` characters of `s`
lowercase to `pat` (fails when `s` is shorter). -/
def lowerStarts (s : List Char) (pat : List Char) : Bool :=
  (s.take pat.length).map Char.toLower == pat

/-- True when the list starts with a word character. -/
def headIsWord (l : List Char) : Bool :=
  match l.head? with
  | some c => isWordChar c
  | none => false

/-- A `\b` position test for a spot right before a word character: the
previous character (if any) must not be a word character. -/
def boundaryBefore (prev : Option Char) : Bool :=
  match prev with
  | some c => !isWordChar c
  | none => true

/-- Length of the shortest prefix ending with the first `.` (the regex tail
`[^.]*\.`); `none` when the text has no statement terminator. -/
def firstDotLen : List Char → Option Nat
  | [] => none
  | c :: rest => if c == '.' then some 1 else (firstDotLen rest).map (· + 1)

/-- The alternation `(?:t881t?|t882g)` with the greedy `t?`: on `t881t…` the
five-character name wins; the canonical lowercase identity is returned
together with the rest of the input (this performs `canon` from app.py). -/
def parseTable (s : List Char) : Option (String × List Char) :=
  if lowerStarts s "t881".toList then
    match (s.drop 4).head? with
    | some c => if Char.toLower c = 't' then some ("t881t", s.drop 5)
                else some ("t881", s.drop 4)
    | none => some ("t881", s.drop 4)
  else if lowerStarts s "t882g".toList then some ("t882g", s.drop 5)
  else none

/-- Backtracking of the trailing `\s*\)?\b` of `FROM_OR_JOIN_TARGET_RE`:
`j` is the number of whitespace characters currently consumed (the regex
tries the greedy count first and backs off).  At consumption 0 the
character before the `\b` test is the last character of the table name
(a word character); at larger consumptions it is a whitespace character. -/
def trailAux (r : List Char) : Nat → Option Nat
  | 0 =>
    if r.head? == some ')' && headIsWord (r.drop 1) then some 1
    else if !headIsWord r then some 0
    else none
  | j + 1 =>
    let rj := r.drop (j + 1)
    if rj.head? == some ')' && headIsWord (rj.drop 1) then some (j + 2)
    else if headIsWord rj then some (j + 1)
    else trailAux r j

/-- The trailing `\s*\)?\b` after the table name in the FROM/JOIN pattern;
returns how many characters it consumes. -/
def matchTrailing (r : List Char) : Option Nat :=
  trailAux r (r.takeWhile isPySpace).length

/-- The decoration `@?\s*\(?\s*` of the FROM/JOIN table token: optional
host-expression marker, optional opening parenthesis, whitespace. -/
def fjStrip (s2 : List Char) : List Char :=
  let s3 := if s2.head? == some '@' then s2.drop 1 else s2
  let s4 := s3.dropWhile isPySpace
  let s5 := if s4.head? == some '(' then s4.drop 1 else s4
  s5.dropWhile isPySpace

/-- `FROM_OR_JOIN_TARGET_RE` (app.py lines 112-114) tried at the start of
`s`, with `prev` the character before `s` (for the leading `\b`):
`\b(?:FROM|JOIN)\s+@?\s*\(?\s*(?P<table>t881t?|t882g)\s*\)?\b`.
Returns the match length and the canonical table name. -/
def matchFJ (prev : Option Char) (s : List Char) : Option (Nat × String) :=
  if boundaryBefore prev &&
      (lowerStarts s "from".toList || lowerStarts s "join".toList) then
    let a := s.drop 4
    let k := (a.takeWhile isPySpace).length
    if k = 0 then none
    else
      match parseTable (fjStrip (a.drop k)) with
      | some (tb, r) =>
        match matchTrailing r with
        | some t => some (s.length - r.length + t, tb)
        | none => none
      | none => none
  else none

/-- `STMT_SELECT_RE` (app.py line 105) tried at the start of `s`:
`\bSELECT\b[^.]*\.` (case-insensitive). -/
def matchSelectStmt (prev : Option Char) (s : List Char) : Option (Nat × Unit) :=
  if boundaryBefore prev && lowerStarts s "select".toList &&
      !headIsWord (s.drop 6) then
    (firstDotLen (s.drop 6)).map (fun k => (6 + k, ()))
  else none

/-- `STMT_OPEN_CURSOR_RE` (app.py line 106) tried at the start of `s`:
`\bOPEN\s+CURSOR\b[^.]*\.` (case-insensitive). -/
def matchOpenCursorStmt (prev : Option Char) (s : List Char) : Option (Nat × Unit) :=
  if boundaryBefore prev && lowerStarts s "open".toList then
    let a := s.drop 4
    let k := (a.takeWhile isPySpace).length
    if k = 0 then none
    else
      let b := a.drop k
      if lowerStarts b "cursor".toList && !headIsWord (b.drop 6) then
        (firstDotLen (b.drop 6)).map (fun k2 => (4 + k + 6 + k2, ()))
      else none
  else none

/-- The optional decoration `(?:@?\s*\(\s*)?` of `WRITE_STMT_RE`: the group
requires an opening parenthesis, otherwise it consumes nothing at all. -/
def writeDecor (s : List Char) : List Char :=
  let s1 := if s.head? == some '@' then s.drop 1 else s
  let s2 := s1.dropWhile isPySpace
  if s2.head? == some '(' then (s2.drop 1).dropWhile isPySpace else s

/-- Shared tail of both `WRITE_STMT_RE` alternatives after the keyword part:
table name, then `\s*(?:\)\s*)?[^.]*\.`, which succeeds exactly when a
terminator dot follows (everything before the first dot is absorbed). -/
def finishWrite (s t : List Char) : Option (Nat × String) :=
  match parseTable t with
  | some (tb, r) =>
    match firstDotLen r with
    | some d => some (s.length - r.length + d, tb)
    | none => none
  | none => none

/-- First `WRITE_STMT_RE` alternative keywords `(INSERT|UPDATE|MODIFY)`. -/
def matchWriteKw (s : List Char) : Bool :=
  lowerStarts s "insert".toList || lowerStarts s "update".toList ||
  lowerStarts s "modify".toList

/-- `WRITE_STMT_RE` (app.py lines 116-123) tried at the start of `s`:
`\b(INSERT|UPDATE|MODIFY)\s+(?:@?\s*\(\s*)?(t881t?|t882g)\s*(?:\)\s*)?[^.]*\.`
or `\bDELETE\s+(?:FROM\s+)?(?:@?\s*\(\s*)?(t881t?|t882g)\s*(?:\)\s*)?[^.]*\.`.
Exactly one of the two table slots is populated; the result carries it as a
single value, lowercased (performing `canon`). -/
def matchWrite (prev : Option Char) (s : List Char) : Option (Nat × String) :=
  if !boundaryBefore prev then none
  else if matchWriteKw s then
    let a := s.drop 6
    let k := (a.takeWhile isPySpace).length
    if k = 0 then none else finishWrite s (writeDecor (a.drop k))
  else if lowerStarts s "delete".toList then
    let a := s.drop 6
    let k := (a.takeWhile isPySpace).length
    if k = 0 then none
    else
      let b := a.drop k
      let c := if lowerStarts b "from".toList &&
                  ((b.drop 4).takeWhile isPySpace).length ≠ 0
               then (b.drop 4).dropWhile isPySpace else b
      finishWrite s (writeDecor c)
  else none

/-- `re.finditer`: left-to-right scan; after a match of length `n` the scan
resumes at the match end, otherwise it advances one character.  `prev` is
the character before the current position (for `\b`), `p` the absolute
offset; the fuel is initialised with the text length (our matchers always
consume at least one character, so this fuel is sufficient). -/
def reFinditer {α : Type} (m : Option Char → List Char → Option (Nat × α)) :
    Nat → Option Char → Nat → List Char → List (Nat × Nat × α)
  | 0, _, _, _ => []
  | _ + 1, _, _, [] => []
  | fuel + 1, prev, p, c :: rest =>
    match m prev (c :: rest) with
    | some (n, a) =>
      (p, p + n, a) ::
        reFinditer m fuel (some ((c :: rest).getD (n - 1) ' ')) (p + n)
          ((c :: rest).drop n)
    | none => reFinditer m fuel (some c) (p + 1) rest

/-- `find_tables_in_select` (app.py lines 125-129): all FROM/JOIN table
matches of a statement, canonicalised and filtered by `TARGET_TABLES`. -/
def find_tables_in_select (stmt : List Char) : List String :=
  ((reFinditer matchFJ stmt.length none 0 stmt).filter
    (fun x => TARGET_TABLES.contains x.2.2)).map (fun x => x.2.2)

/-- The canonical table names collected by the write-DML pass of
`scan_unit` over a text (match order). -/
def writeTargets (s : List Char) : List String :=
  (reFinditer matchWrite s.length none 0 s).map (fun x => x.2.2)

/-- The `Unit` input model (app.py lines 29-36), with pydantic defaults
already applied. -/
structure Unit' where
  pgm_name : String
  inc_name : String
  type : String
  name : String := ""
  start_line : Int := 0
  end_line : Int := 0
  code : String := ""
deriving DecidableEq, Repr

/-- One finding dict as appended by `scan_unit` (all twelve keys). -/
structure Finding where
  pgm_name : String
  inc_name : String
  type : String
  name : String
  start_line : Int
  end_line : Int
  issue_type : String
  severity : String
  line : Nat
  message : String
  suggestion : String
  snippet : String
deriving DecidableEq, Repr

/-- The augmented unit returned by `scan_unit`: `unit.model_dump()` plus the
`rule628_findings` list. -/
structure ScanResult where
  pgm_name : String
  inc_name : String
  type : String
  name : String
  start_line : Int
  end_line : Int
  code : String
  rule628_findings : List Finding
deriving DecidableEq, Repr

/-- First loop of `scan_unit` (app.py lines 184-205): SELECT statements. -/
def selectPass (u : Unit') (raw src : List Char) : List Finding :=
  (reFinditer matchSelectStmt src.length none 0 src).flatMap (fun x =>
    (find_tables_in_select ((src.drop x.1).take (x.2.1 - x.1))).map (fun tb =>
      { pgm_name := u.pgm_name, inc_name := u.inc_name, type := u.type,
        name := u.name, start_line := u.start_line, end_line := u.end_line,
        issue_type := "DirectRead", severity := "info",
        line := line_of_offset src x.1,
        message := "Direct read from " ++ upperStr tb ++
          " detected in SELECT. Use " ++ METHOD_MAP tb ++
          " instead of SELECT … FROM " ++ upperStr tb ++ ".",
        suggestion := suggestion_for_read tb,
        snippet := String.mk (snippet_at raw x.1 x.2.1) }))

/-- Second loop of `scan_unit` (app.py lines 208-229): OPEN CURSOR. -/
def cursorPass (u : Unit') (raw src : List Char) : List Finding :=
  (reFinditer matchOpenCursorStmt src.length none 0 src).flatMap (fun x =>
    (find_tables_in_select ((src.drop x.1).take (x.2.1 - x.1))).map (fun tb =>
      { pgm_name := u.pgm_name, inc_name := u.inc_name, type := u.type,
        name := u.name, start_line := u.start_line, end_line := u.end_line,
        issue_type := "DirectRead", severity := "info",
        line := line_of_offset src x.1,
        message := "Direct read from " ++ upperStr tb ++
          " via OPEN CURSOR FOR SELECT. Use " ++ METHOD_MAP tb ++ " instead.",
        suggestion := suggestion_for_read tb,
        snippet := String.mk (snippet_at raw x.1 x.2.1) }))

/-- Third loop of `scan_unit` (app.py lines 232-250): write DML. -/
def writePass (u : Unit') (raw src : List Char) : List Finding :=
  (reFinditer matchWrite src.length none 0 src).flatMap (fun x =>
    if TARGET_TABLES.contains x.2.2 then
      [{ pgm_name := u.pgm_name, inc_name := u.inc_name, type := u.type,
         name := u.name, start_line := u.start_line, end_line := u.end_line,
         issue_type := "DisallowedWrite", severity := "warning",
         line := line_of_offset src x.1,
         message := "Disallowed write to " ++ upperStr x.2.2 ++
           " detected. Avoid DML on obsolete tables.",
         suggestion := suggestion_for_write x.2.2,
         snippet := String.mk (snippet_at raw x.1 x.2.1) }]
    else [])

/-- `scan_unit` (app.py lines 178-254). -/
def scan_unit (u : Unit') : ScanResult :=
  let raw := u.code.toList
  let src := rm_strings_and_comments raw
  { pgm_name := u.pgm_name, inc_name := u.inc_name, type := u.type,
    name := u.name, start_line := u.start_line, end_line := u.end_line,
    code := u.code,
    rule628_findings :=
      selectPass u raw src ++ cursorPass u raw src ++ writePass u raw src }

/-- `scan_rule_array` (app.py lines 259-266): keeps only results whose
findings list is truthy (non-empty). -/
def scan_rule_array : List Unit' → List ScanResult
  | [] => []
  | u :: rest =>
    let res := scan_unit u
    if res.rule628_findings.isEmpty then scan_rule_array rest
    else res :: scan_rule_array rest

/-- `scan_rule_single` (app.py lines 268-270). -/
def scan_rule_single (u : Unit') : ScanResult := scan_unit u

/-! Auxiliary definitions used to state the claims. -/

/-- Offsets of the newline characters of a text. -/
def nlOffsets (s : List Char) : List Nat :=
  (List.range s.length).filter (fun i => s.getD i ' ' == '\n')

/-- The characters of `s` starting at offset `p` lowercase to `pat`
(and lie entirely inside `s`). -/
def lowersAt (s : List Char) (p : Nat) (pat : List Char) : Prop :=
  p + pat.length ≤ s.length ∧
  ∀ j, j < pat.length → Char.toLower (s.getD (p + j) ' ') = pat.getD j ' '

instance (s : List Char) (p : Nat) (pat : List Char) :
    Decidable (lowersAt s p pat) := by
  unfold lowersAt; exact instDecidableAnd

/-- Every occurrence of a target table name in the raw text contains at least
one position that the sanitizer blanked: the formal reading of "the code
mentions a target table name only inside a string literal or a comment". -/
def mentionsBlanked (raw : List Char) : Prop :=
  ∀ tb ∈ TARGET_TABLES, ∀ p, p < raw.length → lowersAt raw p tb.toList →
    ∃ j, j < tb.toList.length ∧
      (rm_strings_and_comments raw).getD (p + j) ' ' ≠ raw.getD (p + j) ' '

instance (raw : List Char) : Decidable (mentionsBlanked raw) := by
  unfold mentionsBlanked; infer_instance

/-- Pointwise relation between sanitized and raw text: the sanitizer only
ever substitutes a space for a character, never inserts or deletes. -/
inductive SpaceSub : List Char → List Char → Prop
  | nil : SpaceSub [] []
  | keep (c : Char) {s t : List Char} (h : SpaceSub s t) :
      SpaceSub (c :: s) (c :: t)
  | blank (c : Char) {s t : List Char} (h : SpaceSub s t) :
      SpaceSub (' ' :: s) (c :: t)

/-- The text `s` contains an occurrence (case-insensitive) of the table
name `tb` somewhere. -/
def TableIn (s : List Char) (tb : String) : Prop :=
  ∃ pre occ post, s = pre ++ (occ ++ post) ∧ occ.map Char.toLower = tb.toList

/-! Concrete units used as claim instances. -/

def c2Unit : Unit' :=
  { pgm_name := "P", inc_name := "I", type := "PROG",
    code := "* c\nSELECT * FROM t881 INTO TABLE x." }

def c3Input : List Char := quoteChar :: "a\nbc".toList

def c4CommentUnit : Unit' :=
  { pgm_name := "P", inc_name := "I", type := "PROG",
    code := "* SELECT * FROM t881." }

def c4StringUnit : Unit' :=
  { pgm_name := "P", inc_name := "I", type := "PROG",
    code := String.mk ("... VALUE ".toList ++ [quoteChar] ++
      "SELECT FROM T881".toList ++ [quoteChar] ++ ['.']) }

def c5Unit : Unit' :=
  { pgm_name := "ZPGM", inc_name := "ZINC", type := "PROG", name := "MAIN",
    code := "\n\nSELECT * FROM t881 INTO TABLE lt_t881." }

def c6Unit : Unit' :=
  { pgm_name := "ZPGM", inc_name := "ZINC", type := "PROG",
    code := "DELETE FROM t882g WHERE bukrs = lv_bukrs." }

def c8DupUnit : Unit' :=
  { pgm_name := "P", inc_name := "I", type := "PROG",
    code := "SELECT a FROM t881 JOIN t881 ON c." }

def c8OrderUnit : Unit' :=
  { pgm_name := "P", inc_name := "I", type := "PROG",
    code := "DELETE FROM t881.\nSELECT * FROM t881t INTO x." }

def c9EmptyUnit : Unit' :=
  { pgm_name := "P", inc_name := "I", type := "PROG", code := "" }

def c9UntermUnit : Unit' :=
  { pgm_name := "P", inc_name := "I", type := "PROG",
    code := "SELECT * FROM t881" }

/-! Claim theorems (concrete evidence part). -/

/-- C1 (code evidence): the sanitizer preserves the length of the input, but
it does NOT preserve the set of newline offsets, and a full-line comment's
terminator is NOT preserved: `" " * len(ln)` blanks the terminator kept by
`splitlines(keepends=True)`.  On `"* c\nX"` the newline at offset 3 becomes
a space. -/
theorem c1_comment_terminator_blanked :
    rm_strings_and_comments "* c\nX".toList = "    X".toList ∧
    (rm_strings_and_comments "* c\nX".toList).length = "* c\nX".toList.length ∧
    nlOffsets "* c\nX".toList = [3] ∧
    nlOffsets (rm_strings_and_comments "* c\nX".toList) = [] := by decide

/-- C2 (code evidence): `scan_unit` computes `line` from the sanitized text,
and the sanitizer destroys the newline of the leading full-line comment, so
the reported line is 1 while the count of newlines in the raw source before
the statement start offset 4, plus one, is 2. -/
theorem c2_line_number_against_raw_fails :
    ((scan_unit c2Unit).rule628_findings.map (fun f => f.line)) = [1] ∧
    line_of_offset c2Unit.code.toList 4 = 2 := by decide

/-- C3 (code evidence): sanitization is not idempotent.  For the input
`'a\nbc` the first pass blanks the newline inside the unterminated string,
so the second pass sees the two physical lines merged into one and blanks
`bc`, which now sits after an odd number of quotes. -/
theorem c3_not_idempotent :
    rm_strings_and_comments c3Input = quoteChar :: "  bc".toList ∧
    rm_strings_and_comments (rm_strings_and_comments c3Input) =
      quoteChar :: "    ".toList ∧
    rm_strings_and_comments (rm_strings_and_comments c3Input) ≠
      rm_strings_and_comments c3Input := by decide

/-- C5: for a unit whose code places `SELECT * FROM t881 INTO TABLE lt_t881.`
on line 3, `scan_unit` returns exactly one finding: DirectRead / info /
line 3, whose suggestion is the sanctioned-accessor template for t881
(naming `cl_fins_acdoc_util=>get_t881_emu` with its EXPORTING/IMPORTING
parameter roles, as spelled out in the final conjunct). -/
theorem c5_read_detection :
    (scan_unit c5Unit).rule628_findings =
      [{ pgm_name := "ZPGM", inc_name := "ZINC", type := "PROG",
         name := "MAIN", start_line := 0, end_line := 0,
         issue_type := "DirectRead", severity := "info", line := 3,
         message := "Direct read from T881 detected in SELECT. Use cl_fins_acdoc_util=>get_t881_emu instead of SELECT … FROM T881.",
         suggestion := suggestion_for_read "t881",
         snippet := "\\n\\nSELECT * FROM t881 INTO TABLE lt_t881." }] ∧
    suggestion_for_read "t881" =
      "Replace direct read of T881 with cl_fins_acdoc_util=>get_t881_emu.\n\nExample:\n  DATA(ls_t881) = VALUE t881( ).\n  cl_fins_acdoc_util=>get_t881_emu(\n    EXPORTING iv_rldnr = lv_rldnr\n    IMPORTING es_t881  = ls_t881\n    EXCEPTIONS not_found = 1 OTHERS = 2 ).\n" := by
  decide

/-- C6: for the statement `DELETE FROM t882g WHERE bukrs = lv_bukrs.`,
`scan_unit` returns exactly one finding, DisallowedWrite with severity
warning. -/
theorem c6_write_detection :
    (scan_unit c6Unit).rule628_findings =
      [{ pgm_name := "ZPGM", inc_name := "ZINC", type := "PROG",
         name := "", start_line := 0, end_line := 0,
         issue_type := "DisallowedWrite", severity := "warning", line := 1,
         message := "Disallowed write to T882G detected. Avoid DML on obsolete tables.",
         suggestion := suggestion_for_write "t882g",
         snippet := "DELETE FROM t882g WHERE bukrs = lv_bukrs." }] := by
  decide

/-! Generic facts about the finditer embedding, used for the ordering claim. -/

theorem firstDotLen_pos (l : List Char) : ∀ k, firstDotLen l = some k → 1 ≤ k := by
  induction l with
  | nil => intro k h; simp [firstDotLen] at h
  | cons c rest ih =>
    intro k h
    simp only [firstDotLen] at h
    split at h
    · cases h; omega
    · rw [Option.map_eq_some'] at h
      obtain ⟨a, _, ha⟩ := h
      omega

theorem matchSelectStmt_pos (prev : Option Char) (s : List Char) (n : Nat)
    (a : Unit) (h : matchSelectStmt prev s = some (n, a)) : 1 ≤ n := by
  unfold matchSelectStmt at h
  split at h
  · rw [Option.map_eq_some'] at h
    obtain ⟨k, hk, he⟩ := h
    cases he; omega
  · cases h

theorem matchOpenCursorStmt_pos (prev : Option Char) (s : List Char) (n : Nat)
    (a : Unit) (h : matchOpenCursorStmt prev s = some (n, a)) : 1 ≤ n := by
  unfold matchOpenCursorStmt at h
  split at h
  · dsimp only at h
    split at h
    · cases h
    · split at h
      · rw [Option.map_eq_some'] at h
        obtain ⟨k, hk, he⟩ := h
        cases he; omega
      · cases h
  · cases h

theorem finishWrite_pos (s t : List Char) (n : Nat) (tb : String)
    (h : finishWrite s t = some (n, tb)) : 1 ≤ n := by
  unfold finishWrite at h
  split at h
  case h_2 => cases h
  case h_1 tb' r heq =>
    split at h
    case h_2 => cases h
    case h_1 d hd =>
      cases h
      have := firstDotLen_pos r d hd
      omega

theorem matchWrite_pos (prev : Option Char) (s : List Char) (n : Nat)
    (tb : String) (h : matchWrite prev s = some (n, tb)) : 1 ≤ n := by
  unfold matchWrite at h
  split at h
  · cases h
  · split at h
    · dsimp only at h
      split at h
      · cases h
      · exact finishWrite_pos _ _ _ _ h
    · split at h
      · dsimp only at h
        split at h
        · cases h
        · exact finishWrite_pos _ _ _ _ h
      · cases h

theorem reFinditer_ge {α : Type} (m : Option Char → List Char → Option (Nat × α)) :
    ∀ (fuel : Nat) (prev : Option Char) (p : Nat) (s : List Char)
      (x : Nat × Nat × α), x ∈ reFinditer m fuel prev p s → p ≤ x.1 := by
  intro fuel
  induction fuel with
  | zero => intro prev p s x h; simp [reFinditer] at h
  | succ fuel ih =>
    intro prev p s x h
    cases s with
    | nil => simp [reFinditer] at h
    | cons c rest =>
      cases hm : m prev (c :: rest) with
      | none =>
        rw [reFinditer, hm] at h
        exact Nat.le_of_succ_le (ih _ _ _ _ h)
      | some na =>
        obtain ⟨n, a⟩ := na
        rw [reFinditer, hm] at h
        rcases List.mem_cons.mp h with h1 | h1
        · rw [h1]
        · have := ih _ _ _ _ h1
          omega

theorem reFinditer_pairwise {α : Type}
    (m : Option Char → List Char → Option (Nat × α))
    (hm : ∀ prev s n a, m prev s = some (n, a) → 1 ≤ n) :
    ∀ (fuel : Nat) (prev : Option Char) (p : Nat) (s : List Char),
      List.Pairwise (fun x y : Nat × Nat × α => x.1 < y.1)
        (reFinditer m fuel prev p s) := by
  intro fuel
  induction fuel with
  | zero => intro prev p s; simp [reFinditer]
  | succ fuel ih =>
    intro prev p s
    cases s with
    | nil => simp [reFinditer]
    | cons c rest =>
      cases hm' : m prev (c :: rest) with
      | none => rw [reFinditer, hm']; exact ih _ _ _
      | some na =>
        obtain ⟨n, a⟩ := na
        rw [reFinditer, hm']
        refine List.Pairwise.cons ?_ (ih _ _ _)
        intro y hy
        have h1 := reFinditer_ge m fuel _ (p + n) _ y hy
        have h2 := hm prev (c :: rest) n a hm'
        omega

theorem line_of_offset_mono (s : List Char) {a b : Nat} (h : a ≤ b) :
    line_of_offset s a ≤ line_of_offset s b := by
  unfold line_of_offset
  have h1 : s.take a = (s.take b).take a := by
    rw [List.take_take, Nat.min_eq_left h]
  have h2 : List.Sublist ((s.take a).filter (fun c => c == '\n'))
      ((s.take b).filter (fun c => c == '\n')) := by
    rw [h1]
    exact (List.take_sublist _ _).filter _
  have := h2.length_le
  omega

theorem pairwise_flatMap_le {α : Type} (l : List α) (g : α → Nat)
    (f : α → List Nat) (hl : List.Pairwise (fun a b => g a ≤ g b) l)
    (hf : ∀ a, ∀ v ∈ f a, v = g a) :
    List.Pairwise (fun x y => x ≤ y) (l.flatMap f) := by
  induction l with
  | nil => simp
  | cons a rest ih =>
    rw [List.flatMap_cons, List.pairwise_append]
    refine ⟨?_, ih hl.of_cons, ?_⟩
    · apply List.pairwise_of_forall_mem_list
      intro x hx y hy
      rw [hf a x hx, hf a y hy]
    · intro x hx y hy
      rw [List.mem_flatMap] at hy
      obtain ⟨b, hb, hyb⟩ := hy
      rw [hf a x hx, hf b y hyb]
      exact (List.pairwise_cons.mp hl).1 b hb

theorem selectPass_lines_pairwise (u : Unit') (raw src : List Char) :
    List.Pairwise (fun x y => x ≤ y)
      ((selectPass u raw src).map (fun f => f.line)) := by
  unfold selectPass
  rw [List.map_flatMap]
  apply pairwise_flatMap_le _ (fun x : Nat × Nat × Unit => line_of_offset src x.1)
  · exact (reFinditer_pairwise _ matchSelectStmt_pos _ _ _ _).imp
      (fun h => line_of_offset_mono src (Nat.le_of_lt h))
  · intro a v hv
    rw [List.map_map, List.mem_map] at hv
    obtain ⟨tb, _, htb⟩ := hv
    exact htb.symm

theorem cursorPass_lines_pairwise (u : Unit') (raw src : List Char) :
    List.Pairwise (fun x y => x ≤ y)
      ((cursorPass u raw src).map (fun f => f.line)) := by
  unfold cursorPass
  rw [List.map_flatMap]
  apply pairwise_flatMap_le _ (fun x : Nat × Nat × Unit => line_of_offset src x.1)
  · exact (reFinditer_pairwise _ matchOpenCursorStmt_pos _ _ _ _).imp
      (fun h => line_of_offset_mono src (Nat.le_of_lt h))
  · intro a v hv
    rw [List.map_map, List.mem_map] at hv
    obtain ⟨tb, _, htb⟩ := hv
    exact htb.symm

theorem writePass_lines_pairwise (u : Unit') (raw src : List Char) :
    List.Pairwise (fun x y => x ≤ y)
      ((writePass u raw src).map (fun f => f.line)) := by
  unfold writePass
  rw [List.map_flatMap]
  apply pairwise_flatMap_le _ (fun x : Nat × Nat × String => line_of_offset src x.1)
  · exact (reFinditer_pairwise _ matchWrite_pos _ _ _ _).imp
      (fun h => line_of_offset_mono src (Nat.le_of_lt h))
  · intro a v hv
    split at hv
    · rw [List.mem_map] at hv
      obtain ⟨fd, hfd, hv⟩ := hv
      rw [List.mem_singleton] at hfd
      rw [← hv, hfd]
    · simp at hv

/-- C8: findings of one unit are the concatenation of the three passes in
the fixed class order (read-query, read-cursor, write-DML); within each
pass the reported lines are nondecreasing (textual statement order; all
matches of one span share its start line); no deduplication: the unit
referencing `t881` twice in one statement gets two findings, and a write
on line 1 is reported after a read on line 2 because class order comes
first. -/
theorem c8_encounter_order :
    (∀ u : Unit',
      (scan_unit u).rule628_findings =
        selectPass u u.code.toList (rm_strings_and_comments u.code.toList) ++
        cursorPass u u.code.toList (rm_strings_and_comments u.code.toList) ++
        writePass u u.code.toList (rm_strings_and_comments u.code.toList)) ∧
    (∀ (u : Unit') (raw src : List Char),
      List.Pairwise (fun x y => x ≤ y)
        ((selectPass u raw src).map (fun f => f.line)) ∧
      List.Pairwise (fun x y => x ≤ y)
        ((cursorPass u raw src).map (fun f => f.line)) ∧
      List.Pairwise (fun x y => x ≤ y)
        ((writePass u raw src).map (fun f => f.line))) ∧
    (scan_unit c8DupUnit).rule628_findings.map (fun f => (f.issue_type, f.line)) =
      [("DirectRead", 1), ("DirectRead", 1)] ∧
    (scan_unit c8OrderUnit).rule628_findings.map (fun f => (f.issue_type, f.line)) =
      [("DirectRead", 2), ("DisallowedWrite", 1)] := by
  refine ⟨fun u => rfl, fun u raw src =>
    ⟨selectPass_lines_pairwise u raw src, cursorPass_lines_pairwise u raw src,
     writePass_lines_pairwise u raw src⟩, by decide, by decide⟩

/-- C9: `scan_unit` is a total function that returns the unit's own fields
unchanged together with a findings list; in particular it is defined (with
an empty findings list) on empty code and on a statement that lacks its
terminator. -/
theorem c9_totality :
    (∀ u : Unit',
      (scan_unit u).pgm_name = u.pgm_name ∧
      (scan_unit u).inc_name = u.inc_name ∧
      (scan_unit u).type = u.type ∧
      (scan_unit u).name = u.name ∧
      (scan_unit u).start_line = u.start_line ∧
      (scan_unit u).end_line = u.end_line ∧
      (scan_unit u).code = u.code) ∧
    (scan_unit c9EmptyUnit).rule628_findings = [] ∧
    (scan_unit c9UntermUnit).rule628_findings = [] := by
  exact ⟨fun u => ⟨rfl, rfl, rfl, rfl, rfl, rfl, rfl⟩, by decide, by decide⟩

/-- C10: the batch interface keeps exactly the units with a truthy
(non-empty) findings list, in order, while the single-unit interface is
`scan_unit` itself and returns the augmented unit even with empty
findings. -/
theorem c10_batch_omission :
    (∀ us : List Unit',
      scan_rule_array us =
        (us.map scan_unit).filter (fun r => !r.rule628_findings.isEmpty)) ∧
    (∀ u : Unit', scan_rule_single u = scan_unit u) ∧
    scan_rule_array [c9EmptyUnit, c6Unit] = [scan_unit c6Unit] ∧
    (scan_rule_single c9EmptyUnit).rule628_findings = [] := by
  refine ⟨?_, fun u => rfl, by decide, by decide⟩
  intro us
  induction us with
  | nil => rfl
  | cons u rest ih =>
    simp only [scan_rule_array, List.map_cons, List.filter_cons]
    cases h : (scan_unit u).rule628_findings.isEmpty <;> simp [h, ih]

/-! SpaceSub facts: the sanitizer only substitutes spaces in place. -/

theorem spaceSub_refl (l : List Char) : SpaceSub l l := by
  induction l with
  | nil => exact .nil
  | cons c rest ih => exact .keep c ih

theorem spaceSub_spacesOf (l : List Char) : SpaceSub (spacesOf l) l := by
  induction l with
  | nil => exact .nil
  | cons c rest ih => exact .blank c ih

theorem sanLine_spaceSub : ∀ (l : List Char) (b : Bool), SpaceSub (sanLine l b) l
  | [], _ => by simp only [sanLine]; exact .nil
  | [c], b => by
    simp only [sanLine]
    split
    · exact .keep c .nil
    · split
      · exact .blank c .nil
      · cases b
        · exact .keep c .nil
        · exact .blank c .nil
  | c :: c2 :: rest, b => by
    simp only [sanLine]
    split
    case isTrue hq =>
      cases b with
      | false => exact .keep c (sanLine_spaceSub (c2 :: rest) true)
      | true =>
        show SpaceSub (if (c2 == quoteChar) = true then
            c :: c2 :: sanLine rest true
          else c :: sanLine (c2 :: rest) false) (c :: c2 :: rest)
        split
        case isTrue h2 => exact .keep c (.keep c2 (sanLine_spaceSub rest true))
        case isFalse h2 => exact .keep c (sanLine_spaceSub (c2 :: rest) false)
    case isFalse hq =>
      split
      case isTrue h2 => exact spaceSub_spacesOf (c :: c2 :: rest)
      case isFalse h2 =>
        cases b with
        | false => exact .keep c (sanLine_spaceSub (c2 :: rest) false)
        | true => exact .blank c (sanLine_spaceSub (c2 :: rest) true)

theorem spaceSub_append {a b c d : List Char} (h1 : SpaceSub a b)
    (h2 : SpaceSub c d) : SpaceSub (a ++ c) (b ++ d) := by
  induction h1 with
  | nil => exact h2
  | keep x h ih => exact .keep x ih
  | blank x h ih => exact .blank x ih

theorem spaceSub_flatten (L : List (List Char)) (f : List Char → List Char)
    (hf : ∀ ln, SpaceSub (f ln) ln) :
    SpaceSub ((L.map f).flatten) L.flatten := by
  induction L with
  | nil => exact .nil
  | cons a rest ih => exact spaceSub_append (hf a) ih

theorem splitAux_flatten : ∀ (acc s : List Char),
    (splitAux acc s).flatten = acc.reverse ++ s
  | acc, [] => by
    simp only [splitAux]
    split
    case isTrue h => simp [List.isEmpty_iff.mp h]
    case isFalse h => simp
  | acc, [c] => by
    simp only [splitAux]
    split
    · simp
    · simp
  | acc, c :: c2 :: rest => by
    simp only [splitAux]
    split
    case isTrue h =>
      split
      case isTrue h2 =>
        rw [List.flatten_cons, splitAux_flatten [] rest]
        simp [beq_iff_eq.mp h, beq_iff_eq.mp h2]
      case isFalse h2 =>
        rw [List.flatten_cons, splitAux_flatten [] (c2 :: rest)]
        simp [beq_iff_eq.mp h]
    case isFalse h =>
      split
      case isTrue h2 =>
        rw [List.flatten_cons, splitAux_flatten [] (c2 :: rest)]
        simp
      case isFalse h2 =>
        rw [splitAux_flatten (c :: acc) (c2 :: rest)]
        simp

theorem rm_spaceSub (raw : List Char) :
    SpaceSub (rm_strings_and_comments raw) raw := by
  unfold rm_strings_and_comments
  have h1 := spaceSub_flatten (splitlinesKeepends raw)
    (fun ln => if ln.head? == some '*' then spacesOf ln else sanLine ln false)
    (fun ln => by
      dsimp only
      split
      · exact spaceSub_spacesOf ln
      · exact sanLine_spaceSub ln false)
  rw [splitlinesKeepends, splitAux_flatten [] raw] at h1
  simpa using h1

theorem spaceSub_length {s t : List Char} (h : SpaceSub s t) :
    s.length = t.length := by
  induction h with
  | nil => rfl
  | keep c h ih => simp [ih]
  | blank c h ih => simp [ih]

theorem spaceSub_append_split {s t : List Char} (h : SpaceSub s t) :
    ∀ a b, s = a ++ b → ∃ a' b', t = a' ++ b' ∧ a'.length = a.length ∧
      SpaceSub a a' ∧ SpaceSub b b' := by
  induction h with
  | nil =>
    intro a b hab
    obtain ⟨ha, hb⟩ := List.append_eq_nil.mp hab.symm
    exact ⟨[], [], rfl, by rw [ha], ha ▸ .nil, hb ▸ .nil⟩
  | keep c h ih =>
    intro a b hab
    cases a with
    | nil =>
      refine ⟨[], _, rfl, rfl, .nil, ?_⟩
      simp only [List.nil_append] at hab
      exact hab ▸ .keep c h
    | cons x xs =>
      rw [List.cons_append] at hab
      injection hab with h1 h2
      obtain ⟨a', b', ht, hl, hsa, hsb⟩ := ih xs b h2
      exact ⟨c :: a', b', by rw [ht, List.cons_append], by simp [hl],
        h1 ▸ .keep c hsa, hsb⟩
  | blank c h ih =>
    intro a b hab
    cases a with
    | nil =>
      refine ⟨[], _, rfl, rfl, .nil, ?_⟩
      simp only [List.nil_append] at hab
      exact hab ▸ .blank c h
    | cons x xs =>
      rw [List.cons_append] at hab
      injection hab with h1 h2
      obtain ⟨a', b', ht, hl, hsa, hsb⟩ := ih xs b h2
      exact ⟨c :: a', b', by rw [ht, List.cons_append], by simp [hl],
        h1 ▸ .blank c hsa, hsb⟩

theorem spaceSub_eq_of_no_space {m m' : List Char} (h : SpaceSub m m')
    (hm : ∀ c ∈ m, c ≠ ' ') : m' = m := by
  induction h with
  | nil => rfl
  | keep c h ih =>
    rw [ih (fun x hx => hm x (List.mem_cons_of_mem c hx))]
  | blank c h ih =>
    exact absurd rfl (hm ' ' (List.mem_cons_self _ _))

/-! Matcher soundness: a successful table match exhibits an occurrence of
the table name in the scanned text. -/

theorem prependTrans {s t u : List Char} (h1 : ∃ d, s = d ++ t)
    (h2 : ∃ d, t = d ++ u) : ∃ d, s = d ++ u := by
  obtain ⟨a, rfl⟩ := h1
  obtain ⟨b, rfl⟩ := h2
  exact ⟨a ++ b, (List.append_assoc a b u).symm⟩

theorem exists_append_drop (s : List Char) (n : Nat) :
    ∃ d, s = d ++ s.drop n := ⟨s.take n, (List.take_append_drop n s).symm⟩

theorem exists_append_dropWhile (p : Char → Bool) (s : List Char) :
    ∃ d, s = d ++ s.dropWhile p :=
  ⟨s.takeWhile p, (List.takeWhile_append_dropWhile p s).symm⟩

theorem exists_append_ite_drop (x : List Char) (b : Bool) :
    ∃ d, x = d ++ (if b = true then x.drop 1 else x) := by
  cases b
  · exact ⟨[], rfl⟩
  · exact exists_append_drop x 1

theorem fjStrip_decomp (x : List Char) : ∃ d, x = d ++ fjStrip x := by
  unfold fjStrip
  exact prependTrans (exists_append_ite_drop x (x.head? == some '@'))
    (prependTrans (exists_append_dropWhile isPySpace _)
      (prependTrans (exists_append_ite_drop _ _)
        (exists_append_dropWhile isPySpace _)))

theorem writeDecor_decomp (x : List Char) : ∃ d, x = d ++ writeDecor x := by
  unfold writeDecor
  dsimp only
  by_cases h : ((List.dropWhile isPySpace
      (if (x.head? == some '@') = true then x.drop 1 else x)).head? ==
        some '(') = true
  · rw [if_pos h]
    exact prependTrans (exists_append_ite_drop x (x.head? == some '@'))
      (prependTrans (exists_append_dropWhile isPySpace _)
        (prependTrans (exists_append_drop _ 1)
          (exists_append_dropWhile isPySpace _)))
  · rw [if_neg h]
    exact ⟨[], rfl⟩

theorem parseTable_decomp (s : List Char) (tb : String) (r : List Char)
    (h : parseTable s = some (tb, r)) :
    ∃ occ, s = occ ++ r ∧ occ.map Char.toLower = tb.toList := by
  unfold parseTable at h
  split at h
  case isTrue h1 =>
    have h1' : (s.take 4).map Char.toLower = "t881".toList := by
      have h2 := h1
      unfold lowerStarts at h2
      rw [beq_iff_eq] at h2
      exact h2
    split at h
    case h_1 c hc =>
      split at h
      case isTrue h2 =>
        rw [Option.some.injEq, Prod.mk.injEq] at h
        obtain ⟨htb, hr⟩ := h
        subst htb; subst hr
        obtain ⟨t', ht⟩ : ∃ t', s.drop 4 = c :: t' := by
          cases hd : s.drop 4 with
          | nil => rw [hd] at hc; simp at hc
          | cons x xs =>
            rw [hd] at hc
            simp only [List.head?_cons, Option.some.injEq] at hc
            exact ⟨xs, by rw [hc]⟩
        refine ⟨s.take 5, (List.take_append_drop 5 s).symm, ?_⟩
        have h5 : s.take 5 = s.take 4 ++ [c] := by
          have h45 : (5 : Nat) = 4 + 1 := rfl
          rw [h45, List.take_add, ht]
          rfl
        rw [h5, List.map_append, h1']
        simp [h2]
      case isFalse h2 =>
        rw [Option.some.injEq, Prod.mk.injEq] at h
        obtain ⟨htb, hr⟩ := h
        subst htb; subst hr
        exact ⟨s.take 4, (List.take_append_drop 4 s).symm, h1'⟩
    case h_2 hc =>
      rw [Option.some.injEq, Prod.mk.injEq] at h
      obtain ⟨htb, hr⟩ := h
      subst htb; subst hr
      exact ⟨s.take 4, (List.take_append_drop 4 s).symm, h1'⟩
  case isFalse h1 =>
    split at h
    case isTrue h2 =>
      rw [Option.some.injEq, Prod.mk.injEq] at h
      obtain ⟨htb, hr⟩ := h
      subst htb; subst hr
      have h2' : (s.take 5).map Char.toLower = "t882g".toList := by
        have h3 := h2
        unfold lowerStarts at h3
        rw [beq_iff_eq] at h3
        exact h3
      exact ⟨s.take 5, (List.take_append_drop 5 s).symm, h2'⟩
    case isFalse h2 => simp at h

theorem matchFJ_tableIn (prev : Option Char) (s : List Char) (n : Nat)
    (tb : String) (h : matchFJ prev s = some (n, tb)) : TableIn s tb := by
  unfold matchFJ at h
  split at h
  case isFalse => simp at h
  case isTrue hb =>
    dsimp only at h
    split at h
    case isTrue => simp at h
    case isFalse hk =>
      split at h
      case h_2 => simp at h
      case h_1 tb' r heq =>
        split at h
        case h_2 => simp at h
        case h_1 t ht =>
          rw [Option.some.injEq, Prod.mk.injEq] at h
          obtain ⟨hn, htb⟩ := h
          subst htb
          obtain ⟨occ, hX, hocc⟩ := parseTable_decomp _ _ _ heq
          obtain ⟨d0, hd0⟩ : ∃ d, s = d ++
              fjStrip ((s.drop 4).drop ((s.drop 4).takeWhile isPySpace).length) :=
            prependTrans (exists_append_drop s 4)
              (prependTrans (exists_append_drop _ _) (fjStrip_decomp _))
          exact ⟨d0, occ, r, by rw [hd0, hX], hocc⟩

theorem finishWrite_tableIn (s t : List Char) (n : Nat) (tb : String)
    (h : finishWrite s t = some (n, tb)) (hd : ∃ d, s = d ++ t) :
    TableIn s tb := by
  unfold finishWrite at h
  split at h
  case h_2 => simp at h
  case h_1 tb' r heq =>
    split at h
    case h_2 => simp at h
    case h_1 d' hd' =>
      rw [Option.some.injEq, Prod.mk.injEq] at h
      obtain ⟨hn, htb⟩ := h
      subst htb
      obtain ⟨occ, hX, hocc⟩ := parseTable_decomp _ _ _ heq
      obtain ⟨d0, hd0⟩ := hd
      exact ⟨d0, occ, r, by rw [hd0, hX], hocc⟩

theorem exists_append_ite_fromStrip (x : List Char) (b : Bool) :
    ∃ d, x = d ++ (if b = true then (x.drop 4).dropWhile isPySpace else x) := by
  cases b
  · exact ⟨[], rfl⟩
  · exact prependTrans (exists_append_drop x 4) (exists_append_dropWhile isPySpace _)

theorem matchWrite_tableIn (prev : Option Char) (s : List Char) (n : Nat)
    (tb : String) (h : matchWrite prev s = some (n, tb)) : TableIn s tb := by
  unfold matchWrite at h
  split at h
  case isTrue => simp at h
  case isFalse =>
    split at h
    case isTrue =>
      dsimp only at h
      split at h
      case isTrue => simp at h
      case isFalse =>
        exact finishWrite_tableIn _ _ _ _ h
          (prependTrans (exists_append_drop s 6)
            (prependTrans (exists_append_drop _ _) (writeDecor_decomp _)))
    case isFalse =>
      split at h
      case isTrue =>
        dsimp only at h
        split at h
        case isTrue => simp at h
        case isFalse =>
          exact finishWrite_tableIn _ _ _ _ h
            (prependTrans (exists_append_drop s 6)
              (prependTrans (exists_append_drop _ _)
                (prependTrans (exists_append_ite_fromStrip _ _)
                  (writeDecor_decomp _))))
      case isFalse => simp at h

theorem reFinditer_tableIn {α : Type}
    (m : Option Char → List Char → Option (Nat × α)) (f : α → String)
    (hm : ∀ prev s n a, m prev s = some (n, a) → TableIn s (f a)) :
    ∀ (fuel : Nat) (prev : Option Char) (p : Nat) (s : List Char)
      (x : Nat × Nat × α), x ∈ reFinditer m fuel prev p s →
        TableIn s (f x.2.2) := by
  intro fuel
  induction fuel with
  | zero => intro prev p s x h; simp [reFinditer] at h
  | succ fuel ih =>
    intro prev p s x h
    cases s with
    | nil => simp [reFinditer] at h
    | cons c rest =>
      cases hm' : m prev (c :: rest) with
      | none =>
        rw [reFinditer, hm'] at h
        obtain ⟨pre, occ, post, hres, hocc⟩ := ih _ _ _ _ h
        exact ⟨c :: pre, occ, post, by rw [List.cons_append, hres], hocc⟩
      | some na =>
        obtain ⟨n, a⟩ := na
        rw [reFinditer, hm'] at h
        rcases List.mem_cons.mp h with h1 | h1
        · rw [h1]; exact hm _ _ _ _ hm'
        · obtain ⟨pre, occ, post, hres, hocc⟩ := ih _ _ _ _ h1
          obtain ⟨d, hd⟩ := exists_append_drop (c :: rest) n
          exact ⟨d ++ pre, occ, post,
            by rw [hd, hres, List.append_assoc], hocc⟩

theorem find_tables_tableIn (stmt : List Char) (tb : String)
    (h : tb ∈ find_tables_in_select stmt) :
    TableIn stmt tb ∧ tb ∈ TARGET_TABLES := by
  unfold find_tables_in_select at h
  rw [List.mem_map] at h
  obtain ⟨x, hx, rfl⟩ := h
  rw [List.mem_filter] at hx
  refine ⟨reFinditer_tableIn matchFJ (fun t => t) matchFJ_tableIn
    _ _ _ _ _ hx.1, ?_⟩
  exact List.mem_of_elem_eq_true hx.2

theorem tableIn_slice (src : List Char) (p q : Nat) (tb : String)
    (h : TableIn ((src.drop p).take q) tb) : TableIn src tb := by
  obtain ⟨pre, occ, post, hs, hocc⟩ := h
  refine ⟨src.take p ++ pre, occ, post ++ (src.drop p).drop q, ?_, hocc⟩
  conv_lhs => rw [← List.take_append_drop p src,
    ← List.take_append_drop q (src.drop p)]
  rw [hs]
  simp [List.append_assoc]

theorem findings_tableIn (u : Unit') (f : Finding)
    (h : f ∈ (scan_unit u).rule628_findings) :
    ∃ tb, tb ∈ TARGET_TABLES ∧
      TableIn (rm_strings_and_comments u.code.toList) tb := by
  have h' : f ∈
      selectPass u u.code.toList (rm_strings_and_comments u.code.toList) ++
      cursorPass u u.code.toList (rm_strings_and_comments u.code.toList) ++
      writePass u u.code.toList (rm_strings_and_comments u.code.toList) := h
  rcases List.mem_append.mp h' with h2 | h2
  · rcases List.mem_append.mp h2 with h3 | h3
    · unfold selectPass at h3
      rw [List.mem_flatMap] at h3
      obtain ⟨x, hx, hf⟩ := h3
      rw [List.mem_map] at hf
      obtain ⟨tb, htb, _⟩ := hf
      obtain ⟨hti, hmem⟩ := find_tables_tableIn _ _ htb
      exact ⟨tb, hmem, tableIn_slice _ _ _ _ hti⟩
    · unfold cursorPass at h3
      rw [List.mem_flatMap] at h3
      obtain ⟨x, hx, hf⟩ := h3
      rw [List.mem_map] at hf
      obtain ⟨tb, htb, _⟩ := hf
      obtain ⟨hti, hmem⟩ := find_tables_tableIn _ _ htb
      exact ⟨tb, hmem, tableIn_slice _ _ _ _ hti⟩
  · unfold writePass at h2
    rw [List.mem_flatMap] at h2
    obtain ⟨x, hx, hf⟩ := h2
    split at hf
    case isTrue hc =>
      refine ⟨x.2.2, ?_, reFinditer_tableIn matchWrite (fun t => t)
        matchWrite_tableIn _ _ _ _ _ hx⟩
      exact List.mem_of_elem_eq_true hc
    case isFalse => simp at hf

/-! Index-level facts used to transfer occurrences between sanitized and
raw text. -/

theorem getD_append_mid (pre occ post : List Char) (j : Nat)
    (hj : j < occ.length) :
    (pre ++ (occ ++ post)).getD (pre.length + j) ' ' = occ.getD j ' ' := by
  rw [List.getD_append_right pre (occ ++ post) ' ' (pre.length + j)
    (Nat.le_add_right _ _)]
  have hsub : pre.length + j - pre.length = j := by omega
  rw [hsub, List.getD_append occ post ' ' j hj]

theorem map_toLower_getD (l : List Char) : ∀ j, j < l.length →
    (l.map Char.toLower).getD j ' ' = Char.toLower (l.getD j ' ') := by
  induction l with
  | nil => intro j hj; simp at hj
  | cons c rest ih =>
    intro j hj
    cases j with
    | zero => simp
    | succ i => simpa using ih i (by simpa using hj)

theorem spaceSub_getD {s t : List Char} (h : SpaceSub s t) :
    ∀ i, s.getD i ' ' = t.getD i ' ' ∨ s.getD i ' ' = ' ' := by
  induction h with
  | nil => intro i; right; simp
  | keep c h ih =>
    intro i
    cases i with
    | zero => left; simp
    | succ j => simpa using ih j
  | blank c h ih =>
    intro i
    cases i with
    | zero => right; simp
    | succ j => simpa using ih j

/-- C4: a unit whose every (case-insensitive) occurrence of a target table
name in the raw code overlaps a sanitizer-blanked position — i.e. the name
is mentioned only inside string literals, after an inline `"` comment
marker, or on a `*` full-line comment — produces zero findings; in
particular the two spec inputs (`* SELECT * FROM t881.` and
`... VALUE 'SELECT FROM T881'.`) yield empty findings lists. -/
theorem c4_suppression :
    (∀ u : Unit', mentionsBlanked u.code.toList →
      (scan_unit u).rule628_findings = []) ∧
    (scan_unit c4CommentUnit).rule628_findings = [] ∧
    (scan_unit c4StringUnit).rule628_findings = [] := by
  refine ⟨?_, by decide, by decide⟩
  intro u hmb
  by_contra hne
  obtain ⟨f, hf⟩ := List.exists_mem_of_ne_nil _ hne
  obtain ⟨tb, htb, hti⟩ := findings_tableIn u f hf
  obtain ⟨pre, occ, post, hsan, hocc⟩ := hti
  have hlen_occ : occ.length = tb.toList.length := by
    rw [← hocc, List.length_map]
  have hss := rm_spaceSub u.code.toList
  obtain ⟨pre', rest', hraw, hlenpre, hsp, hsrest⟩ :=
    spaceSub_append_split hss pre (occ ++ post) hsan
  obtain ⟨occ', post', hrest, hlenocc, hsocc, hspost⟩ :=
    spaceSub_append_split hsrest occ post rfl
  have hnsp : ∀ c ∈ occ, c ≠ ' ' := by
    intro c hc hceq
    have hmem : Char.toLower c ∈ tb.toList := by
      rw [← hocc]; exact List.mem_map_of_mem Char.toLower hc
    rw [hceq] at hmem
    have hlsp : Char.toLower ' ' = ' ' := by decide
    rw [hlsp] at hmem
    have hns : ∀ t ∈ TARGET_TABLES, ' ' ∉ t.toList := by decide
    exact hns tb htb hmem
  have hocc' : occ' = occ := spaceSub_eq_of_no_space hsocc hnsp
  subst hocc'
  rw [hrest] at hraw
  have hsan_getD : ∀ j, j < occ'.length →
      (rm_strings_and_comments u.code.toList).getD (pre.length + j) ' ' =
        occ'.getD j ' ' := by
    intro j hj
    rw [hsan]
    exact getD_append_mid pre occ' post j hj
  have hraw_getD : ∀ j, j < occ'.length →
      u.code.toList.getD (pre.length + j) ' ' = occ'.getD j ' ' := by
    intro j hj
    rw [hraw, ← hlenpre]
    exact getD_append_mid pre' occ' post' j hj
  have hraw_len : pre.length + occ'.length ≤ u.code.toList.length := by
    rw [hraw]
    simp [List.length_append, hlenpre]
  have hlow : lowersAt u.code.toList pre.length tb.toList := by
    constructor
    · rw [← hlen_occ]
      exact hraw_len
    · intro j hj
      have hj' : j < occ'.length := by rw [hlen_occ]; exact hj
      rw [hraw_getD j hj']
      rw [← map_toLower_getD occ' j hj', hocc]
  have hplt : pre.length < u.code.toList.length := by
    have h1 : 1 ≤ tb.toList.length := by
      have hall : ∀ t ∈ TARGET_TABLES, 1 ≤ t.toList.length := by decide
      exact hall tb htb
    omega
  obtain ⟨j, hj, hneq⟩ := hmb tb htb pre.length hplt hlow
  have hj' : j < occ'.length := by rw [hlen_occ]; exact hj
  exact hneq (by rw [hsan_getD j hj', hraw_getD j hj'])

/-- Witness for C4: the full-line-comment input satisfies the blanking
hypothesis and the general statement instantiates to it. -/
theorem c4_suppression_witness :
    mentionsBlanked c4CommentUnit.code.toList ∧
    (scan_unit c4CommentUnit).rule628_findings = [] :=
  ⟨by decide, c4_suppression.1 c4CommentUnit (by decide)⟩

/-! Word-boundary facts for the table matcher. -/

theorem word_not_space (c : Char) (h : isWordChar c = true) :
    isPySpace c = false := by
  cases hsp : isPySpace c
  · rfl
  · exfalso
    unfold isPySpace at hsp
    simp only [Bool.or_eq_true, beq_iff_eq] at hsp
    rcases hsp with ((((h1 | h1) | h1) | h1) | h1) | h1 <;> subst h1 <;>
      exact absurd h (by decide)

/-- C7: table matching is case-insensitive and boundary-anchored so that
the 5-character name `t881t` is never matched as its 4-character prefix
`t881`: (1) a `t881` result of the shared table alternation is never
followed by a `t`/`T`; (2) the FROM/JOIN trailing `\s*\)?\b` only
succeeds when the character after the name is not a word character;
(3) on a `t881t…` occurrence the greedy alternation yields `t881t`
whatever follows; then the exhaustive list of case variants of the three
names (their only cased characters are the letters) at the read matcher
and at the write matcher, and the concrete no-partial-match checks. -/
theorem c7_case_and_boundary :
    (∀ (s : List Char) (tb : String) (r : List Char),
      parseTable s = some (tb, r) → tb = "t881" →
      ∀ c, r.head? = some c → Char.toLower c ≠ 't') ∧
    (∀ (r : List Char) (t : Nat), matchTrailing r = some t →
      headIsWord r = false) ∧
    (∀ r : List Char, parseTable ("t881t".toList ++ r) = some ("t881t", r)) ∧
    (∀ r : List Char, parseTable ("T881T".toList ++ r) = some ("t881t", r)) ∧
    (find_tables_in_select "FROM t881 .".toList = ["t881"] ∧
     find_tables_in_select "FROM T881 .".toList = ["t881"] ∧
     find_tables_in_select "FROM t881t .".toList = ["t881t"] ∧
     find_tables_in_select "FROM T881t .".toList = ["t881t"] ∧
     find_tables_in_select "FROM t881T .".toList = ["t881t"] ∧
     find_tables_in_select "FROM T881T .".toList = ["t881t"] ∧
     find_tables_in_select "FROM t882g .".toList = ["t882g"] ∧
     find_tables_in_select "FROM T882g .".toList = ["t882g"] ∧
     find_tables_in_select "FROM t882G .".toList = ["t882g"] ∧
     find_tables_in_select "FROM T882G .".toList = ["t882g"] ∧
     find_tables_in_select "JOIN t881 .".toList = ["t881"]) ∧
    (writeTargets "UPDATE T881 SET x.".toList = ["t881"] ∧
     writeTargets "DELETE FROM t881T WHERE x.".toList = ["t881t"] ∧
     writeTargets "UPDATE t881t SET f = 1.".toList = ["t881t"]) ∧
    find_tables_in_select "FROM t881tx .".toList = [] := by
  refine ⟨?_, ?_, fun r => rfl, fun r => rfl, by decide, by decide, by decide⟩
  · intro s tb r h htb c hc
    unfold parseTable at h
    split at h
    case isTrue h1 =>
      split at h
      case h_1 c2 hc2 =>
        split at h
        case isTrue h2 =>
          rw [Option.some.injEq, Prod.mk.injEq] at h
          obtain ⟨ht1, ht2⟩ := h
          rw [← ht1] at htb
          exact absurd htb (by decide)
        case isFalse h2 =>
          rw [Option.some.injEq, Prod.mk.injEq] at h
          obtain ⟨ht1, ht2⟩ := h
          subst ht2
          rw [hc2] at hc
          rw [Option.some.injEq] at hc
          subst hc
          exact h2
      case h_2 hc2 =>
        rw [Option.some.injEq, Prod.mk.injEq] at h
        obtain ⟨ht1, ht2⟩ := h
        subst ht2
        rw [hc2] at hc
        cases hc
    case isFalse h1 =>
      split at h
      case isTrue h2 =>
        rw [Option.some.injEq, Prod.mk.injEq] at h
        obtain ⟨ht1, ht2⟩ := h
        rw [← ht1] at htb
        exact absurd htb (by decide)
      case isFalse h2 => simp at h
  · intro r t h
    cases hr : headIsWord r
    · rfl
    · exfalso
      unfold matchTrailing at h
      have hk : (r.takeWhile isPySpace).length = 0 := by
        cases r with
        | nil => simp [headIsWord] at hr
        | cons c rest =>
          simp only [headIsWord, List.head?_cons] at hr
          simp [List.takeWhile_cons, word_not_space c hr]
      rw [hk] at h
      unfold trailAux at h
      split at h
      case isTrue hcond =>
        simp only [Bool.and_eq_true, beq_iff_eq] at hcond
        obtain ⟨hc1, _⟩ := hcond
        cases r with
        | nil => simp at hc1
        | cons c rest =>
          simp only [List.head?_cons, Option.some.injEq] at hc1
          subst hc1
          simp only [headIsWord, List.head?_cons] at hr
          exact absurd hr (by decide)
      case isFalse hcond =>
        split at h
        case isTrue h2 =>
          rw [hr] at h2
          simp at h2
        case isFalse h2 => cases h

/-- Witness for C7: the boundary conjunct instantiated at a concrete
`t881` match followed by a space. -/
theorem c7_case_and_boundary_witness :
    parseTable "t881 x".toList = some ("t881", " x".toList) ∧
    Char.toLower ' ' ≠ 't' :=
  ⟨rfl, c7_case_and_boundary.1 "t881 x".toList "t881" " x".toList rfl rfl ' ' rfl⟩

end Rule628
